import Mathlib

/-!
Verification of the docs OpenCtx provider (`src/provider/docs/src/provider/provider.ts`).

Strings are modelled as lists of characters (`Str`), mirroring JavaScript's
view of a string as an indexable sequence of UTF-16 units; `String.data` is
used to write concrete values.  JavaScript truthiness of a string is
"non-empty"; `undefined` is modelled by `Option`.
-/

abbrev Str := List Char

/-- Model of JavaScript `String.prototype.trim`: remove whitespace from both ends. -/
def jsTrim (s : Str) : Str :=
  ((s.dropWhile Char.isWhitespace).reverse.dropWhile Char.isWhitespace).reverse

/-- Model of the JS expression `a || b` where `a : string | undefined`:
`b` is used when `a` is `undefined` or the empty string (both falsy). -/
def jsOr (a : Option Str) (b : Str) : Str :=
  match a with
  | none => b
  | some s => if s = [] then b else s

/-- `truncate` from provider.ts: `text.slice(0, maxLength) + '...'` when
`text.length > maxLength`, else `text` unchanged. -/
def truncate (text : Str) (maxLength : Nat) : Str :=
  if text.length > maxLength then text.take maxLength ++ "...".data else text

/-- A corpus document (`doc.doc` in provider.ts): identifier plus optional URL. -/
structure Doc where
  id : Nat
  url : Option Str
deriving DecidableEq, Repr

/-- Extracted content of a document (`doc.content`): `title` and `textContent`
are strings that may be empty. -/
structure Content where
  title : Str
  textContent : Str
deriving DecidableEq, Repr

/-- `IndexedDoc`: a document together with its (possibly absent) content. -/
structure IndexedDoc where
  doc : Doc
  content : Option Content
deriving DecidableEq, Repr

/-- A search engine result; only its numeric `doc` reference is consumed by
the provider (other fields of the TS type are unused there). -/
structure SearchResult where
  doc : Nat
deriving DecidableEq, Repr

/-- The client built over the loaded corpus index: the full document listing
(`client.docs`), the resolver (`client.doc(id)`), and the search engine. -/
structure Client where
  docs : List IndexedDoc
  doc : Nat → IndexedDoc
  search : Str → List SearchResult

/-- An element of `results` in `items`: either a `SearchResult` (query path)
or an `IndexedDoc` (listing path), as discriminated by `isSearchResult`. -/
inductive Candidate where
  | searchResult (r : SearchResult)
  | indexedDoc (d : IndexedDoc)
deriving DecidableEq, Repr

/-- `isSearchResult` from provider.ts: in TS this sniffs for a numeric `doc`
field; the tagged union makes the discrimination explicit. -/
def isSearchResult : Candidate → Bool
  | .searchResult _ => true
  | .indexedDoc _ => false

/-- `const doc = isSearchResult(result) ? client.doc(result.doc) : result`. -/
def resolveCand (client : Client) : Candidate → IndexedDoc
  | .searchResult r => client.doc r.doc
  | .indexedDoc d => d

/-- A result item as pushed by `items`: `title`, `url`, `ui.hover.text`
(called `hover`) and `ai.content` (called `content`). -/
structure Item where
  title : Str
  url : Option Str
  hover : Option Str
  content : Option Str
deriving DecidableEq, Repr

/-- The item pushed for one resolved document (provider.ts lines 39–50):
`title: doc.content?.title || doc.doc?.url || 'Untitled'`,
`url: doc.doc?.url`,
`ui.hover: doc.content?.textContent ? { text: truncate(textContent, 200) } : undefined`,
`ai.content: doc.content?.textContent`. -/
def mkItem (d : IndexedDoc) : Item :=
  { title := jsOr (d.content.map Content.title) (jsOr d.doc.url "Untitled".data)
  , url := d.doc.url
  , hover :=
      match d.content with
      | some c => if c.textContent = [] then none else some (truncate c.textContent 200)
      | none => none
  , content := d.content.map Content.textContent }

/-- The candidate source (provider.ts lines 27–28):
`const query = params.query?.trim()`;
`const results = query ? await client.search({ text: query }) : client.docs`. -/
def candidates (client : Client) (query : Option Str) : List Candidate :=
  match query.map jsTrim with
  | some q =>
      if q = [] then client.docs.map Candidate.indexedDoc
      else (client.search q).map Candidate.searchResult
  | none => client.docs.map Candidate.indexedDoc

/-- The dedup-and-build loop (provider.ts lines 30–51): skip a candidate whose
resolved document id is already in `seen`, otherwise record the id and push
the item built from the document. -/
def itemsLoop (client : Client) : List Candidate → List Nat → List Item
  | [], _ => []
  | c :: rest, seen =>
      let d := resolveCand client c
      if d.doc.id ∈ seen then itemsLoop client rest seen
      else mkItem d :: itemsLoop client rest (d.doc.id :: seen)

/-- Minimum length appearing in `texts`: `Math.min(...texts.map(t => t.length))`
(`0` for an empty list; `longestCommonSuffix` only reaches this with ≥ 2 texts). -/
def minLenOf (texts : List Str) : Nat :=
  match texts.map List.length with
  | [] => 0
  | n :: ns => ns.foldl min n

/-- The loop of `longestCommonSuffix` (provider.ts lines 107–118), collecting
characters from the end while all texts agree.  `i` is the distance from the
end (`text[text.length - 1 - i]` is `text.reverse.get? i`);  `fuel` is the
number of remaining iterations, `minLen` at the start, matching `i < minLen`.
The collected list is in end-to-start order; the caller reverses it, matching
the JS `suffix = currentChar + suffix` accumulation. -/
def lcsRevAux (texts : List Str) : Nat → Nat → Str
  | _, 0 => []
  | i, fuel + 1 =>
      match (texts.headD []).reverse[i]? with
      | none => []
      | some c =>
          if texts.all fun t => t.reverse[i]? == some c then
            c :: lcsRevAux texts (i + 1) fuel
          else []

/-- `longestCommonSuffix` from provider.ts (lines 96–121). -/
def longestCommonSuffix (texts : List Str) : Str :=
  match texts with
  | [] => []
  | [t] => t
  | _ => (lcsRevAux texts 0 (minLenOf texts)).reverse

/-- Common-suffix trimming (provider.ts lines 53–65): only when ≥ 2 items and
the common suffix is non-empty; an item is trimmed (`title.slice(0, -suffix.length)`)
only when `title.length >= suffix.length + 10`. -/
def trimSuffixStep (its : List Item) : List Item :=
  if 2 ≤ its.length then
    let suffix := longestCommonSuffix (its.map Item.title)
    if suffix = [] then its
    else
      its.map fun r =>
        if suffix.length + 10 ≤ r.title.length then
          { r with title := r.title.take (r.title.length - suffix.length) }
        else r
  else its

/-- Title truncation pass (provider.ts lines 69–71): `r.title = truncate(r.title, 50)`. -/
def truncateStep (its : List Item) : List Item :=
  its.map fun r => { r with title := truncate r.title 50 }

/-- The dedup-and-build phase of `items` applied to the selected candidates. -/
def rawItems (client : Client) (query : Option Str) : List Item :=
  itemsLoop client (candidates client query) []

/-- The whole `items` method (provider.ts lines 26–74): candidate selection,
dedup/build, common-suffix trimming, then title truncation. -/
def items (client : Client) (query : Option Str) : List Item :=
  truncateStep (trimSuffixStep (rawItems client query))

/-! ### Index loader (`fetchIndex`, provider.ts lines 82–94) -/

/-- Outcome of a GET request as seen by `fetchIndex`: `ok`/`status` of the
response and its body. -/
structure FetchResp where
  ok : Bool
  status : Nat
  body : Str

/-- Loading errors, abstracting the exceptions thrown during `fetchIndex`.
`retrieval status locator` covers the retrieval failures: `status = some n` is
the explicit `throw` for a non-ok HTTP response (its message interpolates the
status and the locator), `status = none` a failure of the underlying
file-read/URL-parse/fetch call itself (e.g. `fetch` rejecting an unsupported
scheme).  `format` covers JSON-parse/`fromJSON` failures. -/
inductive LoadError where
  | retrieval (status : Option Nat) (locator : Str)
  | format (locator : Str)
deriving DecidableEq, Repr

/-- The platform operations `fetchIndex` performs: file read, HTTP fetch, and
JSON-parse-plus-`fromJSON` (the latter two composed, as their failures are not
distinguished by any claim about this code).  `.error ()` is a thrown/rejected
call. -/
structure LoaderEnv where
  readFile : Str → Except Unit Str
  fetch : Str → Except Unit FetchResp
  parseIndex : Str → Except Unit Client

/-- Simplified model of `new URL(urlStr).protocol`: the characters up to and
including the first `':'`; `none` when there is no colon or an empty scheme
(the `URL` constructor throws). -/
def protocolOf (s : Str) : Option Str :=
  match s.splitOn ':' with
  | scheme :: _ :: _ => if scheme = [] then none else some (scheme ++ [':'])
  | _ => none

/-- Simplified model of `new URL(urlStr).pathname` for `file:` URLs: the text
after the scheme, with a leading `//` authority marker removed. -/
def pathnameOf (s : Str) : Str :=
  let rest := (s.dropWhile (· ≠ ':')).drop 1
  if rest.take 2 = "//".data then rest.drop 2 else rest

/-- `fetchIndex` from provider.ts: parse the locator as a URL; on the `file:`
scheme read and parse the file; on any other scheme perform a GET, throw on a
non-ok response (carrying the HTTP status and the locator), else parse the
body. -/
def fetchIndex (env : LoaderEnv) (urlStr : Str) : Except LoadError Client :=
  match protocolOf urlStr with
  | none => .error (.retrieval none urlStr)
  | some protocol =>
      if protocol = "file:".data then
        match env.readFile (pathnameOf urlStr) with
        | .error _ => .error (.retrieval none urlStr)
        | .ok contents =>
            match env.parseIndex contents with
            | .error _ => .error (.format urlStr)
            | .ok idx => .ok idx
      else
        match env.fetch urlStr with
        | .error _ => .error (.retrieval none urlStr)
        | .ok resp =>
            if !resp.ok then .error (.retrieval (some resp.status) urlStr)
            else
              match env.parseIndex resp.body with
              | .error _ => .error (.format urlStr)
              | .ok idx => .ok idx

/-! ### Concrete values used in counterexamples and witnesses -/

/-- The "Install" document of the spec's suffix-trim example. -/
def docInstall : IndexedDoc :=
  { doc := { id := 1, url := some "https://foo.example/install".data }
  , content := some { title := "Install — Foo Docs".data
                    , textContent := "how to install".data } }

/-- The "Configure" document of the spec's suffix-trim example. -/
def docConfigure : IndexedDoc :=
  { doc := { id := 2, url := some "https://foo.example/configure".data }
  , content := some { title := "Configure — Foo Docs".data
                    , textContent := "how to configure".data } }

/-- A client whose corpus holds the two documents of the spec's example. -/
def clientFoo : Client :=
  { docs := [docInstall, docConfigure]
  , doc := fun i => if i = 1 then docInstall else docConfigure
  , search := fun _ => [] }

/-- A document with no content and an empty-string URL. -/
def docEmptyUrl : IndexedDoc :=
  { doc := { id := 3, url := some [] }, content := none }

/-- A document whose content is present but whose `textContent` is the empty string. -/
def docEmptyText : IndexedDoc :=
  { doc := { id := 4, url := some "https://foo.example/empty".data }
  , content := some { title := "Empty page".data, textContent := [] } }

/-- A loader environment whose GET always yields an HTTP 404 response. -/
def env404 : LoaderEnv :=
  { readFile := fun _ => .error ()
  , fetch := fun _ => .ok { ok := false, status := 404, body := [] }
  , parseIndex := fun _ => .error () }

/-- A loader environment whose GET always rejects (as `fetch` does for
schemes it does not support). -/
def envReject : LoaderEnv :=
  { readFile := fun _ => .error ()
  , fetch := fun _ => .error ()
  , parseIndex := fun _ => .error () }

/-- The item `items` emits for `docInstall` (its preview text is under 200
characters, so it is carried unchanged). -/
def itemInstallOut : Item :=
  { title := "Install — Foo Docs".data
  , url := some "https://foo.example/install".data
  , hover := some "how to install".data
  , content := some "how to install".data }

/-! ### Reference definitions written from the spec's words (for refinement
claims about dedup order) -/

/-- Reference definition following the spec's words (§4.2 Step 3 / §8
"Idempotent dedup"): process the list in order, skipping any element whose
key was already seen, keeping the others at their first occurrence. -/
def specFirstOccurrencesAux {α : Type} (key : α → Nat) : List α → List Nat → List α
  | [], _ => []
  | a :: as, seen =>
      if key a ∈ seen then specFirstOccurrencesAux key as seen
      else a :: specFirstOccurrencesAux key as (key a :: seen)

/-- The spec's "candidate source's order restricted to first occurrences". -/
def specFirstOccurrences {α : Type} (key : α → Nat) (l : List α) : List α :=
  specFirstOccurrencesAux key l []

/-- The selected candidates, each resolved to its document, in candidate order. -/
def resolvedCandidates (client : Client) (query : Option Str) : List IndexedDoc :=
  (candidates client query).map (resolveCand client)

/-! ### Helper lemmas -/

theorem headD_mem {α : Type} {l : List α} (d : α) (h : l ≠ []) : l.headD d ∈ l := by
  cases l with
  | nil => exact absurd rfl h
  | cons a t => exact List.mem_cons_self a t

theorem drop_of_getElem? {α : Type} {l : List α} {n : Nat} {a : α} (h : l[n]? = some a) :
    l.drop n = a :: l.drop (n + 1) := by
  obtain ⟨hn, he⟩ := List.getElem?_eq_some.1 h
  rw [List.drop_eq_getElem_cons hn, he]

theorem lcsRevAux_succ (texts : List Str) (i f : Nat) :
    lcsRevAux texts i (f + 1)
      = match (texts.headD []).reverse[i]? with
        | none => []
        | some c =>
            if texts.all fun t => t.reverse[i]? == some c then
              c :: lcsRevAux texts (i + 1) f
            else [] := rfl

theorem lcsRevAux_prefix (texts : List Str) :
    ∀ (fuel i : Nat) (t : Str), t ∈ texts → lcsRevAux texts i fuel <+: t.reverse.drop i := by
  intro fuel
  induction fuel with
  | zero => intro i t _; exact List.nil_prefix
  | succ f ih =>
      intro i t ht
      rw [lcsRevAux_succ]
      cases hg : (texts.headD []).reverse[i]? with
      | none => exact List.nil_prefix
      | some c =>
          simp only
          by_cases hall : (texts.all fun t => t.reverse[i]? == some c) = true
          · rw [if_pos hall]
            have hsome : t.reverse[i]? = some c := beq_iff_eq.mp (List.all_eq_true.1 hall t ht)
            rw [drop_of_getElem? hsome]
            exact List.cons_prefix_cons.2 ⟨rfl, ih (i + 1) t ht⟩
          · rw [if_neg hall]
            exact List.nil_prefix

theorem prefix_lcsRevAux (texts : List Str) (hne : texts ≠ []) :
    ∀ (D : Str) (fuel i : Nat), D.length ≤ fuel →
      (∀ t ∈ texts, D <+: t.reverse.drop i) → D <+: lcsRevAux texts i fuel := by
  intro D
  induction D with
  | nil => intro fuel i _ _; exact List.nil_prefix
  | cons d D' ih =>
      intro fuel i hlen hpre
      match fuel with
      | 0 => simp at hlen
      | f + 1 =>
          have hhead : texts.headD [] ∈ texts := headD_mem [] hne
          have hg : (texts.headD []).reverse[i]? = some d := by
            obtain ⟨u, hu⟩ := hpre _ hhead
            have h0 : ((texts.headD []).reverse.drop i)[0]? = some d := by
              rw [← hu]; simp
            rw [List.getElem?_drop] at h0
            simpa using h0
          have hall : (texts.all fun t => t.reverse[i]? == some d) = true := by
            refine List.all_eq_true.2 ?_
            intro t ht
            obtain ⟨u, hu⟩ := hpre t ht
            have h0 : (t.reverse.drop i)[0]? = some d := by
              rw [← hu]; simp
            rw [List.getElem?_drop] at h0
            exact beq_iff_eq.mpr (by simpa using h0)
          rw [lcsRevAux_succ, hg]
          simp only
          rw [if_pos hall]
          refine List.cons_prefix_cons.2 ⟨rfl, ih f (i + 1) ?_ ?_⟩
          · have : D'.length + 1 ≤ f + 1 := by simpa using hlen
            omega
          · intro t ht
            have h2 := hpre t ht
            have hgt : t.reverse[i]? = some d := beq_iff_eq.mp (List.all_eq_true.1 hall t ht)
            rw [drop_of_getElem? hgt] at h2
            exact (List.cons_prefix_cons.1 h2).2

theorem le_foldl_min {n a : Nat} {l : List Nat} (ha : n ≤ a) (hl : ∀ x ∈ l, n ≤ x) :
    n ≤ l.foldl min a := by
  induction l generalizing a with
  | nil => exact ha
  | cons x xs ih =>
      exact ih (Nat.le_min.mpr ⟨ha, hl x (List.mem_cons_self x xs)⟩)
        fun y hy => hl y (List.mem_cons_of_mem x hy)

theorem le_minLenOf {texts : List Str} {n : Nat} (hne : texts ≠ [])
    (h : ∀ t ∈ texts, n ≤ t.length) : n ≤ minLenOf texts := by
  cases texts with
  | nil => exact absurd rfl hne
  | cons t ts =>
      simp only [minLenOf, List.map]
      refine le_foldl_min (h t (List.mem_cons_self t ts)) ?_
      intro x hx
      obtain ⟨u, hu, hux⟩ := List.mem_map.1 hx
      exact hux ▸ h u (List.mem_cons_of_mem t hu)

theorem longestCommonSuffix_eq_of_two_le {texts : List Str} (h : 2 ≤ texts.length) :
    longestCommonSuffix texts = (lcsRevAux texts 0 (minLenOf texts)).reverse := by
  match texts with
  | [] => simp at h
  | [t] => simp at h
  | t₁ :: t₂ :: ts => rfl

theorem longestCommonSuffix_isSuffix {texts : List Str} (h2 : 2 ≤ texts.length)
    {t : Str} (ht : t ∈ texts) : longestCommonSuffix texts <:+ t := by
  rw [longestCommonSuffix_eq_of_two_le h2, ← List.reverse_prefix, List.reverse_reverse]
  simpa using lcsRevAux_prefix texts (minLenOf texts) 0 t ht

theorem longestCommonSuffix_longest {texts : List Str} (h2 : 2 ≤ texts.length)
    {C : Str} (hC : ∀ t ∈ texts, C <:+ t) : C <:+ longestCommonSuffix texts := by
  have hne : texts ≠ [] := by
    intro hnil
    rw [hnil] at h2
    simp at h2
  rw [longestCommonSuffix_eq_of_two_le h2, ← List.reverse_prefix, List.reverse_reverse]
  refine prefix_lcsRevAux texts hne C.reverse (minLenOf texts) 0 ?_ ?_
  · rw [List.length_reverse]
    exact le_minLenOf hne fun t ht => (hC t ht).length_le
  · intro t ht
    simpa using List.reverse_prefix.mpr (hC t ht)

theorem take_append_of_suffix {S t : Str} (h : S <:+ t) :
    t.take (t.length - S.length) ++ S = t := by
  obtain ⟨p, hp⟩ := h
  have hlen : p.length = t.length - S.length := by
    rw [← hp, List.length_append]
    omega
  rw [← hlen, ← hp, List.take_left]

/-! ### Claim theorems -/

/-- C1: in the suffix-trimming step of `items` (run only when the list has two
or more items), the computed string `S` is the longest common suffix of every
item's title (it is a suffix of each title, and every common suffix of all
titles is a suffix of it); exactly the trailing `S.length` characters are
removed from each item whose title has length at least `S.length + 10`, any
item with a shorter title is unchanged, and an empty `S` changes nothing. -/
theorem c1_suffix_trim (its : List Item) (h2 : 2 ≤ its.length) :
    (∀ r ∈ its, longestCommonSuffix (its.map Item.title) <:+ r.title) ∧
    (∀ C : Str, (∀ r ∈ its, C <:+ r.title) →
        C <:+ longestCommonSuffix (its.map Item.title)) ∧
    List.Forall₂ (fun r r' =>
        (longestCommonSuffix (its.map Item.title) = [] → r' = r) ∧
        ((longestCommonSuffix (its.map Item.title)).length + 10 ≤ r.title.length →
          r'.title ++ longestCommonSuffix (its.map Item.title) = r.title ∧
          r'.title.length
            = r.title.length - (longestCommonSuffix (its.map Item.title)).length ∧
          r'.url = r.url ∧ r'.hover = r.hover ∧ r'.content = r.content) ∧
        (r.title.length < (longestCommonSuffix (its.map Item.title)).length + 10 →
          r' = r))
      its (trimSuffixStep its) ∧
    (longestCommonSuffix (its.map Item.title) = [] → trimSuffixStep its = its) := by
  have h2m : 2 ≤ (its.map Item.title).length := by
    rw [List.length_map]
    exact h2
  have hsuf : ∀ r ∈ its, longestCommonSuffix (its.map Item.title) <:+ r.title := by
    intro r hr
    exact longestCommonSuffix_isSuffix h2m (List.mem_map_of_mem Item.title hr)
  have hmax : ∀ C : Str, (∀ r ∈ its, C <:+ r.title) →
      C <:+ longestCommonSuffix (its.map Item.title) := by
    intro C hC
    refine longestCommonSuffix_longest h2m ?_
    intro t ht
    obtain ⟨r, hr, hrt⟩ := List.mem_map.1 ht
    exact hrt ▸ hC r hr
  refine ⟨hsuf, hmax, ?_, ?_⟩
  · by_cases hS : longestCommonSuffix (its.map Item.title) = []
    · have hid : trimSuffixStep its = its := by
        simp [trimSuffixStep, h2, hS]
      rw [hid]
      refine List.forall₂_same.2 ?_
      intro r _
      refine ⟨fun _ => rfl, ?_, fun _ => rfl⟩
      intro _
      rw [hS]
      simp
    · have hmap : trimSuffixStep its
          = its.map fun r =>
              if (longestCommonSuffix (its.map Item.title)).length + 10 ≤ r.title.length then
                { r with title := r.title.take (r.title.length - (longestCommonSuffix (its.map Item.title)).length) }
              else r := by
        simp [trimSuffixStep, h2, hS]
      rw [hmap, List.forall₂_map_right_iff]
      refine List.forall₂_same.2 ?_
      intro r hr
      refine ⟨fun hS0 => absurd hS0 hS, ?_, ?_⟩
      · intro hlong
        rw [if_pos hlong]
        have htk := take_append_of_suffix (hsuf r hr)
        refine ⟨htk, ?_, rfl, rfl, rfl⟩
        simp only
        rw [List.length_take]
        omega
      · intro hshort
        rw [if_neg (by omega)]
  · intro hS
    simp [trimSuffixStep, h2, hS]

/-- Closed instance of `c1_suffix_trim` on the two items built from the
example documents. -/
theorem c1_suffix_trim_witness :
    longestCommonSuffix ([mkItem docInstall, mkItem docConfigure].map Item.title)
      <:+ (mkItem docInstall).title :=
  (c1_suffix_trim [mkItem docInstall, mkItem docConfigure] (by decide)).1
    (mkItem docInstall) (by decide)

/-- C2 counterexample: on the titles of the spec's example, the emitted titles
are not `["Install", "Configure"]` — the suffix `" — Foo Docs"` has length 11,
and neither 18 nor 20 reaches `11 + 10`, so the length guard rejects both. -/
theorem c2_cex :
    (items clientFoo none).map Item.title ≠ ["Install".data, "Configure".data] := by
  decide

/-- C2 (amended): the shared suffix `" — Foo Docs"` is detected, but neither
title satisfies the length guard (`18 < 21` and `20 < 21`), so both titles are
left unchanged. -/
theorem c2_amended_guard_rejects :
    longestCommonSuffix ["Install — Foo Docs".data, "Configure — Foo Docs".data]
      = " — Foo Docs".data ∧
    ¬ (" — Foo Docs".data.length + 10 ≤ "Install — Foo Docs".data.length) ∧
    ¬ (" — Foo Docs".data.length + 10 ≤ "Configure — Foo Docs".data.length) ∧
    (items clientFoo none).map Item.title
      = ["Install — Foo Docs".data, "Configure — Foo Docs".data] := by
  refine ⟨by decide, by decide, by decide, by decide⟩

theorem itemsLoop_eq_firstOccurrences (client : Client) :
    ∀ (cands : List Candidate) (seen : List Nat),
      itemsLoop client cands seen
        = (specFirstOccurrencesAux (fun d => d.doc.id)
            (cands.map (resolveCand client)) seen).map mkItem := by
  intro cands
  induction cands with
  | nil => intro seen; rfl
  | cons c rest ih =>
      intro seen
      simp only [itemsLoop, List.map, specFirstOccurrencesAux]
      by_cases h : (resolveCand client c).doc.id ∈ seen
      · rw [if_pos h, if_pos h, ih]
      · rw [if_neg h, if_neg h, ih]
        rfl

theorem specFirstOccurrencesAux_keys {α : Type} (key : α → Nat) :
    ∀ (l : List α) (seen : List Nat),
      ((specFirstOccurrencesAux key l seen).map key).Nodup ∧
      (∀ k ∈ (specFirstOccurrencesAux key l seen).map key, k ∉ seen) := by
  intro l
  induction l with
  | nil => intro seen; simp [specFirstOccurrencesAux]
  | cons a as ih =>
      intro seen
      simp only [specFirstOccurrencesAux]
      by_cases h : key a ∈ seen
      · rw [if_pos h]
        exact ih seen
      · rw [if_neg h]
        obtain ⟨hnodup, hfresh⟩ := ih (key a :: seen)
        refine ⟨?_, ?_⟩
        · simp only [List.map, List.nodup_cons]
          refine ⟨?_, hnodup⟩
          intro hmem
          exact (hfresh _ hmem) (List.mem_cons_self _ _)
        · intro k hk
          rcases List.mem_cons.1 hk with hk | hk
          · rw [hk]; exact h
          · intro hseen
            exact (hfresh k hk) (List.mem_cons_of_mem _ hseen)

theorem specFirstOccurrencesAux_mem {α : Type} (key : α → Nat) :
    ∀ (l : List α) (seen : List Nat) (k : Nat),
      k ∈ (specFirstOccurrencesAux key l seen).map key ↔ (k ∈ l.map key ∧ k ∉ seen) := by
  intro l
  induction l with
  | nil => intro seen k; simp [specFirstOccurrencesAux]
  | cons a as ih =>
      intro seen k
      simp only [specFirstOccurrencesAux]
      by_cases h : key a ∈ seen
      · rw [if_pos h, ih]
        simp only [List.map, List.mem_cons]
        constructor
        · rintro ⟨hk, hs⟩
          exact ⟨Or.inr hk, hs⟩
        · rintro ⟨hk | hk, hs⟩
          · exact absurd (hk ▸ h) hs
          · exact ⟨hk, hs⟩
      · rw [if_neg h]
        simp only [List.map, List.mem_cons, ih]
        constructor
        · rintro (hk | ⟨hk, hs⟩)
          · exact ⟨Or.inl hk, hk ▸ h⟩
          · exact ⟨Or.inr hk, fun hseen => hs (Or.inr hseen)⟩
        · rintro ⟨hk | hk, hs⟩
          · exact Or.inl hk
          · by_cases hka : k = key a
            · exact Or.inl hka
            · exact Or.inr ⟨hk, by simp [List.mem_cons, hka, hs]⟩

/-- C3: the dedup/build phase of `items` equals the resolved candidate list
restricted to first occurrences of each document id, mapped through the item
builder — so exactly one item is emitted per distinct resolved id, at the
position of its first occurrence, and the emitted ids are exactly the
candidate ids. -/
theorem c3_dedup_first_occurrence (client : Client) (query : Option Str) :
    rawItems client query
      = (specFirstOccurrences (fun d => d.doc.id)
          (resolvedCandidates client query)).map mkItem ∧
    ((specFirstOccurrences (fun d => d.doc.id)
        (resolvedCandidates client query)).map (fun d => d.doc.id)).Nodup ∧
    (∀ k : Nat,
      k ∈ (specFirstOccurrences (fun d => d.doc.id)
            (resolvedCandidates client query)).map (fun d => d.doc.id)
        ↔ k ∈ (resolvedCandidates client query).map (fun d => d.doc.id)) := by
  refine ⟨?_, ?_, ?_⟩
  · exact itemsLoop_eq_firstOccurrences client (candidates client query) []
  · exact (specFirstOccurrencesAux_keys (fun d => d.doc.id)
      (resolvedCandidates client query) []).1
  · intro k
    rw [specFirstOccurrences,
      specFirstOccurrencesAux_mem (fun d => d.doc.id) (resolvedCandidates client query) [] k]
    simp

/-- Closed instance of `c3_dedup_first_occurrence` on the example client. -/
theorem c3_dedup_first_occurrence_witness :
    rawItems clientFoo none
      = (specFirstOccurrences (fun d => d.doc.id)
          (resolvedCandidates clientFoo none)).map mkItem :=
  (c3_dedup_first_occurrence clientFoo none).1

/-- C4: title truncation runs on every item after the common-suffix trimming
step; it leaves any title of at most 50 characters unchanged, and replaces a
longer title by exactly its first 50 characters followed by the ellipsis
marker (and changes nothing else in the item). -/
theorem c4_truncate_after_trim (client : Client) (query : Option Str) (its : List Item) :
    items client query = truncateStep (trimSuffixStep (rawItems client query)) ∧
    List.Forall₂ (fun r r' =>
        (r.title.length ≤ 50 → r' = r) ∧
        (50 < r.title.length →
          r'.title = r.title.take 50 ++ "...".data ∧ (r.title.take 50).length = 50 ∧
          r'.url = r.url ∧ r'.hover = r.hover ∧ r'.content = r.content))
      its (truncateStep its) := by
  refine ⟨rfl, ?_⟩
  rw [truncateStep, List.forall₂_map_right_iff]
  refine List.forall₂_same.2 ?_
  intro r _
  constructor
  · intro hle
    have ht : truncate r.title 50 = r.title := by
      rw [truncate, if_neg (by omega)]
    simp [ht]
  · intro hgt
    have ht : truncate r.title 50 = r.title.take 50 ++ "...".data := by
      rw [truncate, if_pos (by omega)]
    refine ⟨ht, ?_, rfl, rfl, rfl⟩
    rw [List.length_take]
    omega

/-- Closed instance of `c4_truncate_after_trim` on the example client. -/
theorem c4_truncate_after_trim_witness :
    items clientFoo none = truncateStep (trimSuffixStep (rawItems clientFoo none)) :=
  (c4_truncate_after_trim clientFoo none []).1

theorem itemsLoop_search_irrel (client : Client) (s : Str → List SearchResult) :
    ∀ (cands : List Candidate) (seen : List Nat),
      itemsLoop { client with search := s } cands seen = itemsLoop client cands seen := by
  intro cands
  induction cands with
  | nil => intro seen; rfl
  | cons c rest ih =>
      intro seen
      simp only [itemsLoop, resolveCand]
      cases c with
      | searchResult r =>
          simp only
          by_cases h : (client.doc r.doc).doc.id ∈ seen
          · rw [if_pos h, if_pos h, ih]
          · rw [if_neg h, if_neg h, ih]
      | indexedDoc d =>
          simp only
          by_cases h : d.doc.id ∈ seen
          · rw [if_pos h, if_pos h, ih]
          · rw [if_neg h, if_neg h, ih]

/-- C5: when the query is absent or trims to the empty string, the candidate
source is the full corpus listing and the search engine is never consulted
(the output does not depend on it at all); for any other query the candidate
source is the search engine's results for the trimmed query text. -/
theorem c5_query_routing (client : Client) (query : Option Str) :
    ((query = none ∨ ∃ q, query = some q ∧ jsTrim q = []) →
      candidates client query = client.docs.map Candidate.indexedDoc ∧
      ∀ s : Str → List SearchResult,
        items { client with search := s } query = items client query) ∧
    (∀ q, query = some q → jsTrim q ≠ [] →
      candidates client query = (client.search (jsTrim q)).map Candidate.searchResult) := by
  constructor
  · intro h
    have hcand : ∀ s : Str → List SearchResult,
        candidates { client with search := s } query = client.docs.map Candidate.indexedDoc := by
      intro s
      rcases h with h | ⟨q, hq, ht⟩
      · rw [h]; rfl
      · rw [hq]
        simp [candidates, ht]
    refine ⟨hcand client.search, ?_⟩
    intro s
    rw [items, items, rawItems, rawItems, hcand s, hcand client.search,
      itemsLoop_search_irrel]
  · intro q hq hne
    rw [hq]
    simp [candidates, hne]

/-- Closed instance of `c5_query_routing`: a whitespace-only query routes to
the full listing. -/
theorem c5_query_routing_witness :
    candidates clientFoo (some "   ".data) = clientFoo.docs.map Candidate.indexedDoc :=
  ((c5_query_routing clientFoo (some "   ".data)).1
    (Or.inr ⟨"   ".data, rfl, by decide⟩)).1

/-- C6 counterexample: a document with no content and a present-but-empty URL.
The claim says the item's title should then be the URL (the empty string), but
the code's `||` chain treats the empty URL as absent and falls through to
`"Untitled"`. -/
theorem c6_cex_empty_url :
    docEmptyUrl.content = none ∧ docEmptyUrl.doc.url = some [] ∧
    (mkItem docEmptyUrl).title = "Untitled".data ∧ (mkItem docEmptyUrl).title ≠ [] := by
  refine ⟨rfl, rfl, by decide, by decide⟩

/-- C6 (amended): the pre-post-processing title is the document's title when
present and non-empty, else its URL when present and non-empty, else
`"Untitled"` (an empty URL, like an absent one, falls through). -/
theorem c6_amended_title_fallback (d : IndexedDoc) :
    (∀ c, d.content = some c → c.title ≠ [] → (mkItem d).title = c.title) ∧
    ((d.content = none ∨ ∃ c, d.content = some c ∧ c.title = []) →
      ∀ u, d.doc.url = some u → u ≠ [] → (mkItem d).title = u) ∧
    ((d.content = none ∨ ∃ c, d.content = some c ∧ c.title = []) →
      (d.doc.url = none ∨ d.doc.url = some []) →
      (mkItem d).title = "Untitled".data) := by
  refine ⟨?_, ?_, ?_⟩
  · intro c hc ht
    simp [mkItem, jsOr, hc, ht]
  · rintro (hc | ⟨c, hc, ht⟩) u hu hne
    · simp [mkItem, jsOr, hc, hu, hne]
    · simp [mkItem, jsOr, hc, ht, hu, hne]
  · rintro (hc | ⟨c, hc, ht⟩) (hu | hu)
    · simp [mkItem, jsOr, hc, hu]
    · simp [mkItem, jsOr, hc, hu]
    · simp [mkItem, jsOr, hc, ht, hu]
    · simp [mkItem, jsOr, hc, ht, hu]

/-- Closed instance of `c6_amended_title_fallback`: a document with no title
and no URL yields title `"Untitled"`. -/
theorem c6_amended_title_fallback_witness :
    (mkItem { doc := { id := 9, url := none }, content := none }).title
      = "Untitled".data :=
  (c6_amended_title_fallback { doc := { id := 9, url := none }, content := none }).2.2
    (Or.inl rfl) (Or.inl rfl)

/-- C7 counterexample: a document whose text content is present but empty.
The claim says a preview (the first 200 characters, i.e. the empty string)
should be produced; the code produces no preview at all. -/
theorem c7_cex_empty_text :
    docEmptyText.content = some { title := "Empty page".data, textContent := [] } ∧
    (mkItem docEmptyText).content = some [] ∧
    (mkItem docEmptyText).hover = none := by
  refine ⟨rfl, rfl, rfl⟩

/-- C7 (amended): when the text content is present and non-empty, the preview
is the text itself when it has at most 200 characters, and its first 200
characters followed by the ellipsis marker when longer; when the content
record is absent no preview field is produced. -/
theorem c7_amended_preview (d : IndexedDoc) :
    (∀ c, d.content = some c → c.textContent ≠ [] →
      (c.textContent.length ≤ 200 → (mkItem d).hover = some c.textContent) ∧
      (200 < c.textContent.length →
        (mkItem d).hover = some (c.textContent.take 200 ++ "...".data))) ∧
    (d.content = none → (mkItem d).hover = none) := by
  constructor
  · intro c hc ht
    constructor
    · intro hle
      have htr : truncate c.textContent 200 = c.textContent := by
        rw [truncate, if_neg (by omega)]
      simp [mkItem, hc, ht, htr]
    · intro hgt
      have htr : truncate c.textContent 200 = c.textContent.take 200 ++ "...".data := by
        rw [truncate, if_pos (by omega)]
      simp [mkItem, hc, ht, htr]
  · intro hc
    simp [mkItem, hc]

/-- Closed instance of `c7_amended_preview`: the example document's short text
is previewed unchanged. -/
theorem c7_amended_preview_witness :
    (mkItem docInstall).hover = some "how to install".data :=
  ((c7_amended_preview docInstall).1
    { title := "Install — Foo Docs".data, textContent := "how to install".data }
    rfl (by decide)).1 (by decide)

/-- C8: the index loader fails with a retrieval error — and produces no
index — when a network fetch returns a non-success response (the error carries
the HTTP status code and the locator), and when the locator's scheme is
neither `file:` nor a network scheme (so that the platform `fetch` itself
rejects the request; the error then carries the locator). -/
theorem c8_loader_failures (env : LoaderEnv) (urlStr : Str) (protocol : Str)
    (hp : protocolOf urlStr = some protocol) (hnf : protocol ≠ "file:".data) :
    (∀ resp, env.fetch urlStr = .ok resp → resp.ok = false →
      fetchIndex env urlStr = .error (.retrieval (some resp.status) urlStr)) ∧
    (protocol ≠ "http:".data → protocol ≠ "https:".data →
      env.fetch urlStr = .error () →
      fetchIndex env urlStr = .error (.retrieval none urlStr)) := by
  constructor
  · intro resp hf hok
    simp [fetchIndex, hp, hnf, hf, hok]
  · intro _ _ hf
    simp [fetchIndex, hp, hnf, hf]

/-- Closed instances of `c8_loader_failures`: an HTTP 404 yields a retrieval
error carrying the status and the locator, and an `ftp:` locator whose fetch
rejects yields a retrieval error carrying the locator. -/
theorem c8_loader_failures_witness :
    fetchIndex env404 "http://docs.example/index.json".data
      = .error (.retrieval (some 404) "http://docs.example/index.json".data) ∧
    fetchIndex envReject "ftp://docs.example/index.json".data
      = .error (.retrieval none "ftp://docs.example/index.json".data) :=
  ⟨(c8_loader_failures env404 "http://docs.example/index.json".data "http:".data
      (by decide) (by decide)).1 { ok := false, status := 404, body := [] } rfl rfl
  , (c8_loader_failures envReject "ftp://docs.example/index.json".data "ftp:".data
      (by decide) (by decide)).2 (by decide) (by decide) rfl⟩

theorem jsOr_ne_nil {a : Option Str} {b : Str} (hb : b ≠ []) : jsOr a b ≠ [] := by
  cases a with
  | none => exact hb
  | some s =>
      by_cases hs : s = []
      · simp [jsOr, hs, hb]
      · simp [jsOr, hs]

theorem mkItem_title_ne_nil (d : IndexedDoc) : (mkItem d).title ≠ [] :=
  jsOr_ne_nil (jsOr_ne_nil (by decide))

theorem mem_itemsLoop_mkItem (client : Client) :
    ∀ (cands : List Candidate) (seen : List Nat) (r : Item),
      r ∈ itemsLoop client cands seen → ∃ d, r = mkItem d := by
  intro cands
  induction cands with
  | nil => intro seen r hr; simp [itemsLoop] at hr
  | cons c rest ih =>
      intro seen r hr
      simp only [itemsLoop] at hr
      by_cases h : (resolveCand client c).doc.id ∈ seen
      · rw [if_pos h] at hr
        exact ih seen r hr
      · rw [if_neg h] at hr
        rcases List.mem_cons.1 hr with hr | hr
        · exact ⟨resolveCand client c, hr⟩
        · exact ih _ r hr

theorem trimSuffixStep_title_ne_nil {its : List Item}
    (h : ∀ r ∈ its, r.title ≠ []) :
    ∀ r ∈ trimSuffixStep its, r.title ≠ [] := by
  intro r hr
  rw [trimSuffixStep] at hr
  by_cases h2 : 2 ≤ its.length
  · rw [if_pos h2] at hr
    by_cases hS : longestCommonSuffix (its.map Item.title) = []
    · simp only [hS, if_pos] at hr
      exact h r (by simpa using hr)
    · simp only [if_neg hS] at hr
      obtain ⟨r0, hr0, hfr⟩ := List.mem_map.1 hr
      by_cases hg : (longestCommonSuffix (its.map Item.title)).length + 10 ≤ r0.title.length
      · rw [if_pos hg] at hfr
        rw [← hfr]
        simp only
        intro hnil
        have := congrArg List.length hnil
        rw [List.length_take] at this
        simp at this
        omega
      · rw [if_neg hg] at hfr
        rw [← hfr]
        exact h r0 hr0
  · rw [if_neg h2] at hr
    exact h r hr

theorem truncate_ne_nil {t : Str} (h : t ≠ []) (n : Nat) : truncate t n ≠ [] := by
  rw [truncate]
  by_cases hl : t.length > n
  · rw [if_pos hl]
    simp
  · rw [if_neg hl]
    exact h

/-- C9: every item emitted by `items` has a non-empty title: the fallback
chain never yields the empty string, the suffix-trim guard keeps at least 10
characters, and truncation never empties a non-empty title. -/
theorem c9_titles_nonempty (client : Client) (query : Option Str) :
    ∀ r ∈ items client query, r.title ≠ [] := by
  intro r hr
  rw [items, truncateStep] at hr
  obtain ⟨r1, hr1, hfr⟩ := List.mem_map.1 hr
  have hraw : ∀ r ∈ rawItems client query, r.title ≠ [] := by
    intro r2 hr2
    obtain ⟨d, hd⟩ := mem_itemsLoop_mkItem client (candidates client query) [] r2 hr2
    rw [hd]
    exact mkItem_title_ne_nil d
  have h1 : r1.title ≠ [] := trimSuffixStep_title_ne_nil hraw r1 hr1
  rw [← hfr]
  exact truncate_ne_nil h1 50

/-- Closed instance of `c9_titles_nonempty` on the example client's first
emitted item. -/
theorem c9_titles_nonempty_witness : itemInstallOut.title ≠ [] :=
  c9_titles_nonempty clientFoo none itemInstallOut (by decide)

/-- C10: a present-but-empty text content yields no preview (exactly as an
absent one does), while the full-content passthrough field carries the empty
string verbatim. -/
theorem c10_empty_text_passthrough (d : IndexedDoc) (c : Content)
    (h1 : d.content = some c) (h2 : c.textContent = []) :
    (mkItem d).hover = none ∧ (mkItem d).content = some [] := by
  constructor
  · simp [mkItem, h1, h2]
  · simp [mkItem, h1, h2]

/-- Closed instance of `c10_empty_text_passthrough` on the empty-text
document. -/
theorem c10_empty_text_passthrough_witness :
    (mkItem docEmptyText).hover = none ∧ (mkItem docEmptyText).content = some [] :=
  c10_empty_text_passthrough docEmptyText
    { title := "Empty page".data, textContent := [] } rfl rfl
